import Mathlib

/-!
Verification development for the usac-sheets-scripts repository.

The repository has two engines:

* a paginated fetcher (`streamUSACData` in `download.ts`, and an earlier
  variant of the same function in `sheets.ts`) together with its query
  builder (`generateChunkedOptionsCombinations`, `chunkArray`,
  `cartesianProduct`, `buildCondition`, `buildWhereClause`);
* a snapshot differ (`CALC_DELTA`, of which the repository holds three
  variants: a structured-column one and a free-text one in one source file,
  and an older free-text one in another).

This file shallowly embeds those functions.  Grids are lists of rows of
string cells (spreadsheet ranges of scalar values).  JavaScript `Map`s,
`Set`s and objects are embedded as insertion-ordered association lists with
the same overwrite semantics, `String.prototype.split` / `Array.prototype.join`
are embedded character-exactly, and `Number(...)` is embedded as an exact
decimal parser (see `jsNumber`).
-/

/-- A spreadsheet row: an ordered list of scalar cell values. -/
abbrev Row := List String

/-- A 2-D grid of cells (header row plus data rows). -/
abbrev Grid := List Row

/-! ## JavaScript primitive models -/

/-- Model of `Map.prototype.get`: first entry with the key, if any. -/
def mapGet {α : Type} (m : List (String × α)) (k : String) : Option α :=
  match m with
  | [] => none
  | e :: rest => if e.1 = k then some e.2 else mapGet rest k

/-- Model of `Map.prototype.set` (and of assigning an object property):
the value of an existing key is overwritten in place, a new key is
appended at the end, as JavaScript insertion order does. -/
def mapSet {α : Type} (m : List (String × α)) (k : String) (v : α) :
    List (String × α) :=
  match m with
  | [] => [(k, v)]
  | e :: rest => if e.1 = k then (k, v) :: rest else e :: mapSet rest k v

/-- Model of `new Map(pairs)` (and of building an object by successive
property assignments): later entries overwrite earlier ones, first
occurrence fixes the position. -/
def jsMapOf {α : Type} (pairs : List (String × α)) : List (String × α) :=
  pairs.foldl (fun m e => mapSet m e.1 e.2) []

/-- Model of `Set.prototype.add`: appends the element unless present. -/
def setAdd (s : List String) (x : String) : List String :=
  if x ∈ s then s else s ++ [x]

/-- Model of `String.prototype.split` with a one-character separator,
on the character list: `"" ↦ [""]`, separators delimit possibly empty
fields. -/
def splitSep (sep : Char) : List Char → List (List Char)
  | [] => [[]]
  | c :: cs =>
    let r := splitSep sep cs
    if c = sep then [] :: r
    else
      match r with
      | [] => [[c]]
      | g :: gs => (c :: g) :: gs

/-- Model of `pkValue.split("|")`. -/
def splitPipe (s : String) : List String :=
  (splitSep '|' s.data).map (fun g => String.mk g)

/-- Model of `values.join("|")` (`Array.prototype.join`; `undefined`
entries render as the empty string, which the callers below encode by
defaulting missing cells to `""`). -/
def joinPipe (l : List String) : String :=
  String.mk (List.intercalate ['|'] (l.map String.data))

/-- A JavaScript number as the differ meets one: the exact decimal value
`mant / 10 ^ scale`.  The source uses IEEE doubles; on the decimal
literals the differ compares, this exact model orders values the same
way. -/
structure JsNum where
  mant : Int
  scale : Nat
deriving DecidableEq, Repr

/-- Value of a digit list read in base 10. -/
def digitsVal (cs : List Char) : Nat :=
  cs.foldl (fun acc c => acc * 10 + (c.toNat - 48)) 0

/-- The stripping loop of `normJsNum`, structurally recursive on the
scale. -/
def normJsNumGo (m : Int) : Nat → JsNum
  | 0 => ⟨m, 0⟩
  | s + 1 => if m % 10 = 0 then normJsNumGo (m / 10) s else ⟨m, s + 1⟩

/-- Strips trailing decimal zeros so that `1.50` and `1.5` coincide, as
the numeric value does. -/
def normJsNum (n : JsNum) : JsNum :=
  normJsNumGo n.mant n.scale

/-- Parses an unsigned decimal numeral: digits, optionally a point and
digits, at least one digit in all.  `none` models `NaN`. -/
def parseUnsigned (cs : List Char) : Option JsNum :=
  let intPart := cs.takeWhile Char.isDigit
  let rest := cs.dropWhile Char.isDigit
  match rest with
  | [] => if intPart.isEmpty then none else some (normJsNum ⟨(digitsVal intPart : Int), 0⟩)
  | c :: frac =>
    if c = '.' && frac.all Char.isDigit && !(intPart.isEmpty && frac.isEmpty) then
      some (normJsNum ⟨(digitsVal intPart * 10 ^ frac.length + digitsVal frac : Int), frac.length⟩)
    else none

/-- Leading and trailing whitespace stripped, on the character list (the
whitespace trimming `Number(...)` performs before parsing). -/
def trimChars (cs : List Char) : List Char :=
  ((cs.dropWhile Char.isWhitespace).reverse.dropWhile Char.isWhitespace).reverse

/-- Model of `Number(s)` on the strings the differ feeds it: whitespace is
trimmed, the empty string is `0`, an optional sign precedes a decimal
numeral; everything else is `NaN` (`none`).  Hexadecimal, exponent and
`Infinity` forms of the host language are out of the modelled fragment and
also map to `none`. -/
def jsNumber (s : String) : Option JsNum :=
  match trimChars s.data with
  | [] => some ⟨0, 0⟩
  | '+' :: rest => parseUnsigned rest
  | '-' :: rest => (parseUnsigned rest).map (fun n => ⟨-n.mant, n.scale⟩)
  | cs => parseUnsigned cs

/-- Exact order on the represented values: `a < b` as rationals, by
cross-multiplication.  Models the sign tests `diff > 0` / `diff < 0` the
source applies to `currentNum - previousNum`. -/
def jsNumLt (a b : JsNum) : Bool :=
  decide (a.mant * (10 : Int) ^ b.scale < b.mant * (10 : Int) ^ a.scale)

/-- Model of `Number.prototype.toLocaleString` restricted to plain decimal
rendering: the grouping separators and fraction rounding of the host
locale are abstracted away, the digits and sign are kept. -/
def renderJsNum (n : JsNum) : String :=
  let ds := (Nat.repr n.mant.natAbs).data
  let ds := if ds.length ≤ n.scale then List.replicate (n.scale + 1 - ds.length) '0' ++ ds else ds
  let ip := ds.take (ds.length - n.scale)
  let fp := ds.drop (ds.length - n.scale)
  (if n.mant < 0 then "-" else "") ++ String.mk ip ++
    (if fp.isEmpty then "" else "." ++ String.mk fp)

/-- Model of `Array.prototype.indexOf`: position of the first occurrence,
`-1` when absent. -/
def jsIndexOf (l : List String) (x : String) : Int :=
  match l.indexOf? x with
  | some i => (i : Int)
  | none => -1

/-! ## Query builder (`download.ts` / `utils.ts`) -/

/-- A filter-dimension value as the options objects hold one: `null`, a
scalar string, or an array of strings. -/
inductive OptVal where
  | vnull
  | vstr (s : String)
  | varr (l : List String)
deriving DecidableEq, Repr

/-- Lookup in a chunk-size mapping (`OPTIONS_CHUNK_SIZES`): `none` for an
absent key, `some none` for an explicit `null`. -/
def lookupChunkSize (cs : List (String × Option Nat)) (k : String) :
    Option (Option Nat) :=
  match cs with
  | [] => none
  | e :: rest => if e.1 = k then some e.2 else lookupChunkSize rest k

/-- The chunk size for a key when `chunkSizes[key]` is truthy: a present,
non-null, non-zero entry.  (JavaScript treats `undefined`, `null` and `0`
alike as falsy here.) -/
def truthyChunkSize (cs : List (String × Option Nat)) (k : String) : Option Nat :=
  match lookupChunkSize cs k with
  | some (some n) => if n = 0 then none else some n
  | _ => none

/-- The chunking loop of `chunkArray` for a positive chunk size
`szPred + 1`: consecutive slices `array.slice(i, i + chunkSize)`. -/
def chunksPos (szPred : Nat) : List String → List (List String)
  | [] => []
  | x :: xs => (x :: xs.take szPred) :: chunksPos szPred (xs.drop szPred)
termination_by l => l.length
decreasing_by
  simp only [List.length_cons, List.length_drop]
  omega

/-- `chunkArray` from `utils.ts`: an empty array or a falsy chunk size
returns `[array]`, otherwise consecutive chunks of at most `chunkSize`. -/
def chunkArray (l : List String) (chunkSize : Nat) : List (List String) :=
  if l.isEmpty || chunkSize == 0 then [l]
  else chunksPos (chunkSize - 1) l

/-- `cartesianProduct` from `utils.ts`:
`arrays.reduce((acc, array) => acc.flatMap(x => array.map(y => [...x, y])), [[]])`. -/
def cartesianProduct {α : Type} (arrays : List (List α)) : List (List α) :=
  arrays.foldl (fun acc arr => (acc.map (fun x => arr.map (fun y => x ++ [y]))).flatten) [[]]

/-- The per-dimension chunk list of `generateChunkedOptionsCombinations`:
an array value with a truthy chunk size is chunked, every other dimension
becomes the one-element list `[value]`. -/
def dimChunks (cs : List (String × Option Nat)) (e : String × OptVal) : List OptVal :=
  match e.2 with
  | OptVal.varr l =>
    match truthyChunkSize cs e.1 with
    | some sz => (chunkArray l sz).map OptVal.varr
    | none => [e.2]
  | _ => [e.2]

/-- `generateChunkedOptionsCombinations` from `download.ts`: chunk each
dimension, take the Cartesian product, and re-zip each product tuple with
the original dimension names.  Options objects are embedded as
association lists with distinct keys, in property order. -/
def generateChunkedOptionsCombinations (options : List (String × OptVal))
    (chunkSizes : List (String × Option Nat)) : List (List (String × OptVal)) :=
  let chunkedOptions := options.map (fun e => dimChunks chunkSizes e)
  (cartesianProduct chunkedOptions).map
    (fun combination => (options.map Prod.fst).zip combination)

/-- `formatValue` from `download.ts`: single-quotes the value. -/
def formatValue (v : String) : String :=
  "'" ++ v ++ "'"

/-- `formatAndConditions` from `download.ts`: `conditions.join(" AND ")`. -/
def formatAndConditions (conditions : List String) : String :=
  String.intercalate " AND " conditions

/-- `formatOrConditions` from `download.ts`:
`values.map(formatValue).join(", ")`. -/
def formatOrConditions (values : List String) : String :=
  String.intercalate ", " (values.map formatValue)

/-- `buildCondition` from `download.ts`.  An array of more than one value
becomes an `IN` list; otherwise the sole (or scalar) value becomes an
equality.  `value[0]` of an empty array is `undefined`, which the template
literal renders as the text `undefined`; a `null` scalar renders as
`null`. -/
def buildCondition (key : String) (v : OptVal) : String :=
  match v with
  | OptVal.varr l =>
    if 1 < l.length then
      "(`" ++ key ++ "` IN (" ++ formatOrConditions l ++ "))"
    else
      "(`" ++ key ++ "` = " ++ formatValue (l.headD "undefined") ++ ")"
  | OptVal.vstr s => "(`" ++ key ++ "` = " ++ formatValue s ++ ")"
  | OptVal.vnull => "(`" ++ key ++ "` = " ++ formatValue "null" ++ ")"

/-- The filter of `buildWhereClause`: `value != null && value.length > 0`
(the length of a string for a scalar, of the array for an array). -/
def qualifies : OptVal → Bool
  | OptVal.vnull => false
  | OptVal.vstr s => 0 < s.length
  | OptVal.varr l => 0 < l.length

/-- The condition list `buildWhereClause` computes before joining. -/
def buildConditions (options : List (String × OptVal)) : List String :=
  (options.filter (fun e => qualifies e.2)).map (fun e => buildCondition e.1 e.2)

/-- The predicate string of the spec's `buildPredicate` contract: the
`AND`-join `formatAndConditions(conditions)` that `buildWhereClause`
computes (the part after the `WHERE` keyword). -/
def buildPredicate (options : List (String × OptVal)) : String :=
  formatAndConditions (buildConditions options)

/-- `buildWhereClause` from `download.ts`: prefixes `WHERE ` when at least
one condition qualifies, otherwise the empty string. -/
def buildWhereClause (options : List (String × OptVal)) : String :=
  if 0 < (buildConditions options).length then
    "WHERE " ++ formatAndConditions (buildConditions options)
  else ""

/-! ## Paged fetch (`download.ts` and the `sheets.ts` variant) -/

/-- `CHUNK_SIZE` from the source: rows per page. -/
def CHUNK_SIZE : Nat := 1000

/-- The query template of `streamUSACData` in `download.ts`:
`SELECT * ${whereClause} ORDER BY :id LIMIT ${CHUNK_SIZE} OFFSET ${offset}`. -/
def buildQuery (whereClause : String) (offset : Nat) : String :=
  "SELECT * " ++ whereClause ++ " ORDER BY :id LIMIT " ++ toString CHUNK_SIZE ++
    " OFFSET " ++ toString offset

/-- The query template of the `streamUSACData` variant in `sheets.ts`:
`SELECT * ${whereClause} LIMIT ${CHUNK_SIZE} OFFSET ${offset}`. -/
def buildQuerySheets (whereClause : String) (offset : Nat) : String :=
  "SELECT * " ++ whereClause ++ " LIMIT " ++ toString CHUNK_SIZE ++
    " OFFSET " ++ toString offset

/-- Whether `pat` is an initial segment of `l` (character lists). -/
def leadMatch (pat l : List Char) : Bool :=
  match pat, l with
  | [], _ => true
  | _ :: _, [] => false
  | p :: ps, c :: cs => p == c && leadMatch ps cs

/-- Whether `pat` occurs contiguously inside `l` (character lists): the
substring test the paging claims are stated with. -/
def containsPat (pat : List Char) : List Char → Bool
  | [] => leadMatch pat []
  | c :: cs => leadMatch pat (c :: cs) || containsPat pat cs

/-- One combination of the `download.ts` paging loop.  The remote source is
modelled as the list of successive page responses (already parsed by
`Utilities.parseCsv`); a response of at most one line — or the end of the
modelled response list — is the exhaustion signal that stops the loop.
`first` is the session-wide `isFirstChunk` flag: a kept page is yielded
whole when the flag is still set, with its header line stripped
otherwise.  Returns the yielded batches and the flag's final value. -/
def streamPages (first : Bool) : List Grid → List Grid × Bool
  | [] => ([], first)
  | p :: ps =>
    if 1 < p.length then
      let rest := streamPages false ps
      ((if first then p else p.tail) :: rest.1, rest.2)
    else ([], first)

/-- The whole `download.ts` fetch session: the combinations in query-builder
order, the `isFirstChunk` flag threaded across them. -/
def streamSession (first : Bool) : List (List Grid) → List Grid
  | [] => []
  | c :: cs =>
    let r := streamPages first c
    r.1 ++ streamSession r.2 cs

/-- `streamUSACData` from `download.ts`, as a function from the per-combination
page responses to the yielded batches. -/
def streamUSACData (combos : List (List Grid)) : List Grid :=
  streamSession true combos

/-- One combination of the `sheets.ts` paging loop: the header is kept iff
`offset === 0`, i.e. only on the first page of each combination. -/
def streamPagesSheets (offsetZero : Bool) : List Grid → List Grid
  | [] => []
  | p :: ps =>
    if 1 < p.length then
      (if offsetZero then p else p.tail) :: streamPagesSheets false ps
    else []

/-- The `streamUSACData` variant from `sheets.ts`: each combination restarts
at offset 0, so each keeps its first page's header. -/
def streamUSACDataSheets (combos : List (List Grid)) : List Grid :=
  (combos.map (fun c => streamPagesSheets true c)).flatten

/-- The pages a combination actually yields: the responses up to the first
one with at most one line. -/
def keptPages (pages : List Grid) : List Grid :=
  pages.takeWhile (fun p => decide (1 < p.length))

/-- Keeps the first batch whole and strips the header line of every later
one. -/
def stripAfterFirst : List Grid → List Grid
  | [] => []
  | p :: ps => p :: ps.map (fun q => q.tail)

/-! ## Differ (`CALC_DELTA`, three variants) -/

/-- `TIMESTAMP_COL` from the structured-variant source file. -/
def TIMESTAMP_COL : String := "Timestamp"

/-- A primary-key argument of `CALC_DELTA`: a number or an array of
numbers (a nested array argument is modelled already flattened, as
`.flat()` leaves it). -/
inductive PkArg where
  | num (n : Int)
  | arr (l : List Int)
deriving DecidableEq, Repr

/-- JavaScript truthiness of the optional `rightPkIndex` argument: absent
or the number `0` are falsy, every array is truthy. -/
def pkProvided : Option PkArg → Bool
  | none => false
  | some (PkArg.num n) => n != 0
  | some (PkArg.arr _) => true

/-- The index list of a primary-key argument. -/
def pkList : PkArg → List Int
  | PkArg.num n => [n]
  | PkArg.arr l => l

/-- The effective right key indices: `rightPkIndex` when truthy, otherwise
`leftPkIndex`. -/
def effRightIdx (leftPk : PkArg) (rightPk : Option PkArg) : List Int :=
  if pkProvided rightPk then pkList (rightPk.getD leftPk) else pkList leftPk

/-- `index - 1` over the 1-indexed argument. -/
def zeroBased (idx : List Int) : List Int :=
  idx.map (fun i => i - 1)

/-- The validation test: some zero-based index below `0` or at/past the
header count. -/
def invalidIdx (n : Nat) (z : List Int) : Bool :=
  z.any (fun i => decide (i < 0) || decide ((n : Int) ≤ i))

/-- The zero-based indices as naturals once validated. -/
def toNatList (z : List Int) : List Nat :=
  z.map Int.toNat

/-- The composite key of a row:
`pkIndices.map(i => row[i]).join("|")` (a missing cell joins as `""`). -/
def buildKey (idx : List Nat) (row : Row) : String :=
  joinPipe (idx.map (fun i => row.getD i ""))

/-- `new Map(data.map(row => [key(row), row]))`: last row wins per key,
first occurrence fixes iteration position. -/
def keyedRows (idx : List Nat) (rows : Grid) : List (String × Row) :=
  jsMapOf (rows.map (fun row => (buildKey idx row, row)))

/-- The structured variant's per-matched-row change detection: for each
header position that is neither the reserved timestamp column nor a key
column, stringified values are compared (`String(row[i])`, so a missing
cell reads `undefined`); a differing pair renders numerically when both
sides parse as numbers, with the up indicator exactly when the difference
is positive, and with the generic `Δ` marker otherwise. -/
def changeEntries (headers : List String) (leftZN : List Nat)
    (currentRow previousRow : Row) : List (String × String) :=
  headers.enum.filterMap (fun p =>
    if p.2 == TIMESTAMP_COL || leftZN.contains p.1 then none
    else
      let currentValue := (currentRow.get? p.1).getD "undefined"
      let previousValue := (previousRow.get? p.1).getD "undefined"
      if currentValue == previousValue then none
      else
        match jsNumber currentValue, jsNumber previousValue with
        | some currentNum, some previousNum =>
          some (p.2,
            (if jsNumLt previousNum currentNum then "⬆️" else "⬇️") ++ " " ++
              renderJsNum previousNum ++ " → " ++ renderJsNum currentNum)
        | _, _ => some (p.2, "Δ " ++ previousValue ++ " → " ++ currentValue))

/-- The object built for an unmatched (new) row: the `"New Row"` marker
property and then every header's cell. -/
def newRowObj (headers : List String) (currentRow : Row) : List (String × String) :=
  jsMapOf (("New Row", "New Row") ::
    headers.enum.map (fun p => (p.2, currentRow.getD p.1 "")))

/-- The structured variant's first pass over `currentMap`: accumulates the
set of changed column names (insertion-ordered, `"New Row"` added for each
unmatched row) and the per-key change objects. -/
def firstPassStructured (headers : List String) (leftZN : List Nat)
    (previousMap currentMap : List (String × Row)) :
    List String × List (String × List (String × String)) :=
  currentMap.foldl
    (fun acc e =>
      match mapGet previousMap e.1 with
      | none =>
        (setAdd acc.1 "New Row", mapSet acc.2 e.1 (newRowObj headers e.2))
      | some previousRow =>
        let rowChanges := changeEntries headers leftZN e.2 previousRow
        (rowChanges.foldl (fun s en => setAdd s en.1) acc.1,
          if rowChanges.isEmpty then acc.2 else mapSet acc.2 e.1 (jsMapOf rowChanges)))
    ([], [])

/-- The structured variant's changed-column header segment: the collected
names sorted by `headers.indexOf` (a stable comparator sort), then the
`"New Row"` column, if present, spliced out and pushed last. -/
def structuredChangedCols (headers : List String) (changedColumns : List String) :
    List String :=
  let sorted := changedColumns.insertionSort
    (fun a b => jsIndexOf headers a ≤ jsIndexOf headers b)
  if sorted.contains "New Row" then sorted.erase "New Row" ++ ["New Row"]
  else sorted

/-- The structured variant's second pass: one output row per stored key
whose split components are all nonempty, the change cells aligned to the
changed-column list (`changes[column] || ""`). -/
def structuredBody (changedColumnsList : List String)
    (changesByRow : List (String × List (String × String))) : Grid :=
  changesByRow.filterMap (fun e =>
    let pkValues := splitPipe e.1
    if pkValues.all (fun v => v != "") then
      some (pkValues ++ changedColumnsList.map (fun column => (mapGet e.2 column).getD ""))
    else none)

/-- `CALC_DELTA`, structured-column variant: validation, composite-key
maps, the two passes, and the single-empty-cell sentinel when no body row
was produced. -/
def calcDeltaStructured (currentData previousData headers2d : Grid)
    (leftPk : PkArg) (rightPk : Option PkArg) : Grid :=
  let headers := headers2d.flatten
  if currentData.isEmpty || previousData.isEmpty || headers.isEmpty then
    [["Error", "One or more input arrays are empty."]]
  else
    let leftZ := zeroBased (pkList leftPk)
    let rightZ := zeroBased (effRightIdx leftPk rightPk)
    if invalidIdx headers.length leftZ || invalidIdx headers.length rightZ then
      [["Error", "Invalid Primary Key index. Must be between 1 and " ++
        toString headers.length ++ "."]]
    else
      let leftZN := toNatList leftZ
      let rightZN := toNatList rightZ
      let currentMap := keyedRows leftZN currentData
      let previousMap := keyedRows rightZN previousData
      let fp := firstPassStructured headers leftZN previousMap currentMap
      let changedColumnsList := structuredChangedCols headers fp.1
      let pkHeaders := leftZN.map (fun i => headers.getD i "")
      let body := structuredBody changedColumnsList fp.2
      let output := (pkHeaders ++ changedColumnsList) :: body
      if 1 < output.length then output else [[""]]

/-- The free-text variant's change list (the later source file): key
columns are skipped — the timestamp column is not — and each differing
pair renders as one line with the three-way ⬆️ / ⬇️ / Δ indicator when
both sides parse as numbers, the generic Δ marker otherwise. -/
def changesListV2 (headers : List String) (leftZN : List Nat)
    (currentRow previousRow : Row) : List String :=
  headers.enum.filterMap (fun p =>
    if leftZN.contains p.1 then none
    else
      let currentValue := (currentRow.get? p.1).getD "undefined"
      let previousValue := (previousRow.get? p.1).getD "undefined"
      if currentValue == previousValue then none
      else
        match jsNumber currentValue, jsNumber previousValue with
        | some currentNum, some previousNum =>
          some ((if jsNumLt previousNum currentNum then "⬆️"
                 else if jsNumLt currentNum previousNum then "⬇️" else "Δ") ++
            " " ++ p.2 ++ ": " ++ previousValue ++ " → " ++ currentValue)
        | _, _ => some ("Δ " ++ p.2 ++ ": " ++ previousValue ++ " → " ++ currentValue))

/-- The body rows of the free-text variant: a `"New row"` row for each key
with no previous counterpart, otherwise the newline-joined change list
when nonempty. -/
def freeTextBodyV2 (headers : List String) (leftZN : List Nat)
    (previousMap currentMap : List (String × Row)) : Grid :=
  currentMap.filterMap (fun e =>
    let pkValues := splitPipe e.1
    match mapGet previousMap e.1 with
    | none => some (pkValues ++ ["New row"])
    | some previousRow =>
      let changes := changesListV2 headers leftZN e.2 previousRow
      if changes.isEmpty then none
      else some (pkValues ++ [String.intercalate "\n" changes]))

/-- `CALC_DELTA`, free-text variant of the later source file. -/
def calcDeltaFreeText2 (currentData previousData headers2d : Grid)
    (leftPk : PkArg) (rightPk : Option PkArg) : Grid :=
  let headers := headers2d.flatten
  if currentData.isEmpty || previousData.isEmpty || headers.isEmpty then
    [["Error", "One or more input arrays are empty."]]
  else
    let leftZ := zeroBased (pkList leftPk)
    let rightZ := zeroBased (effRightIdx leftPk rightPk)
    if invalidIdx headers.length leftZ || invalidIdx headers.length rightZ then
      [["Error", "Invalid Primary Key index. Must be between 1 and " ++
        toString headers.length ++ "."]]
    else
      let leftZN := toNatList leftZ
      let rightZN := toNatList rightZ
      let currentMap := keyedRows leftZN currentData
      let previousMap := keyedRows rightZN previousData
      let body := freeTextBodyV2 headers leftZN previousMap currentMap
      let output := ((leftZN.map (fun i => headers.getD i "")) ++ ["Changes"]) :: body
      if 1 < output.length then output else [[""]]

/-- `Number(value)` of a raw cell: a missing cell is `undefined`, and
`Number(undefined)` is `NaN`. -/
def jsNumberCell (v : Option String) : Option JsNum :=
  match v with
  | none => none
  | some s => jsNumber s

/-- The change list of the older free-text variant: raw cell values are
compared without stringification (so a missing cell differs from the text
`undefined`), key columns are skipped, the timestamp column is not. -/
def changesListV1 (flatHeaders : List String) (leftZN : List Nat)
    (currentRow previousRow : Row) : List String :=
  flatHeaders.enum.filterMap (fun p =>
    if leftZN.contains p.1 then none
    else
      let currentValue := currentRow.get? p.1
      let previousValue := previousRow.get? p.1
      if currentValue == previousValue then none
      else
        let currentStr := currentValue.getD "undefined"
        let previousStr := previousValue.getD "undefined"
        match jsNumberCell currentValue, jsNumberCell previousValue with
        | some currentNum, some previousNum =>
          some ((if jsNumLt previousNum currentNum then "⬆️"
                 else if jsNumLt currentNum previousNum then "⬇️" else "Δ") ++
            " " ++ p.2 ++ ": " ++ previousStr ++ " → " ++ currentStr)
        | _, _ => some ("Δ " ++ p.2 ++ ": " ++ previousStr ++ " → " ++ currentStr))

/-- The body rows of the older free-text variant: a key with **no**
matching previous row is skipped outright (`if (!previousRow) continue`);
matched rows contribute their newline-joined change list when nonempty. -/
def freeTextBodyV1 (flatHeaders : List String) (leftZN : List Nat)
    (previousMap currentMap : List (String × Row)) : Grid :=
  currentMap.filterMap (fun e =>
    match mapGet previousMap e.1 with
    | none => none
    | some previousRow =>
      let changes := changesListV1 flatHeaders leftZN e.2 previousRow
      if changes.isEmpty then none
      else some (splitPipe e.1 ++ [String.intercalate "\n" changes]))

/-- `CALC_DELTA`, the older free-text variant: its emptiness check also
tests `headers[0].length` before flattening. -/
def calcDeltaFreeText1 (currentData previousData headers2d : Grid)
    (leftPk : PkArg) (rightPk : Option PkArg) : Grid :=
  if currentData.isEmpty || previousData.isEmpty || headers2d.isEmpty ||
      (headers2d.headD []).isEmpty then
    [["Error", "One or more input arrays are empty."]]
  else
    let flatHeaders := headers2d.flatten
    let leftZ := zeroBased (pkList leftPk)
    let rightZ := zeroBased (effRightIdx leftPk rightPk)
    if invalidIdx flatHeaders.length leftZ || invalidIdx flatHeaders.length rightZ then
      [["Error", "Invalid Primary Key index. Must be between 1 and " ++
        toString flatHeaders.length ++ "."]]
    else
      let leftZN := toNatList leftZ
      let rightZN := toNatList rightZ
      let currentMap := keyedRows leftZN currentData
      let previousMap := keyedRows rightZN previousData
      let body := freeTextBodyV1 flatHeaders leftZN previousMap currentMap
      let output := ((leftZN.map (fun i => flatHeaders.getD i "")) ++ ["Changes"]) :: body
      if 1 < output.length then output else [[""]]

/-! ## Substring lemmas for the query templates -/

theorem leadMatch_append (pat rest : List Char) : leadMatch pat (pat ++ rest) = true := by
  induction pat with
  | nil => rfl
  | cons p ps ih => simp [leadMatch, ih]

theorem containsPat_here (pat suf : List Char) : containsPat pat (pat ++ suf) = true := by
  cases h : pat ++ suf with
  | nil =>
    have hp : pat = [] := by
      cases pat with
      | nil => rfl
      | cons a l => simp at h
    subst hp
    rfl
  | cons c cs =>
    rw [containsPat, ← h, leadMatch_append]
    rfl

theorem containsPat_at (pre pat suf : List Char) :
    containsPat pat (pre ++ (pat ++ suf)) = true := by
  induction pre with
  | nil => simpa using containsPat_here pat suf
  | cons c cs ih => simp [containsPat, ih]

/-- C5 (amended): every query of the `download.ts` `streamUSACData` contains
the `ORDER BY :id` clause together with `LIMIT` and `OFFSET`; the
`sheets.ts` variant's query carries `LIMIT` and `OFFSET` but (see the
counterexample) no `ORDER BY` clause. -/
theorem buildQuery_order_by_clause (whereClause : String) (offset : Nat) :
    containsPat "ORDER BY :id".data (buildQuery whereClause offset).data = true ∧
    containsPat "LIMIT".data (buildQuery whereClause offset).data = true ∧
    containsPat "OFFSET".data (buildQuery whereClause offset).data = true ∧
    containsPat "LIMIT".data (buildQuerySheets whereClause offset).data = true ∧
    containsPat "OFFSET".data (buildQuerySheets whereClause offset).data = true := by
  have hord : (" ORDER BY :id LIMIT ").data =
      (" ").data ++ ("ORDER BY :id").data ++ (" LIMIT ").data := rfl
  have hlim : (" ORDER BY :id LIMIT ").data =
      (" ORDER BY :id ").data ++ ("LIMIT").data ++ (" ").data := rfl
  have hoff : (" OFFSET ").data = (" ").data ++ ("OFFSET").data ++ (" ").data := rfl
  have hlim2 : (" LIMIT ").data = (" ").data ++ ("LIMIT").data ++ (" ").data := rfl
  refine ⟨?_, ?_, ?_, ?_, ?_⟩
  · have hdata : (buildQuery whereClause offset).data =
        ("SELECT * ".data ++ whereClause.data ++ " ".data) ++
          ("ORDER BY :id".data ++ (" LIMIT ".data ++ (toString CHUNK_SIZE).data ++
            " OFFSET ".data ++ (toString offset).data)) := by
      simp only [buildQuery, String.data_append, hord, List.append_assoc]
      rfl
    rw [hdata]
    exact containsPat_at _ _ _
  · have hdata : (buildQuery whereClause offset).data =
        ("SELECT * ".data ++ whereClause.data ++ " ORDER BY :id ".data) ++
          ("LIMIT".data ++ (" ".data ++ (toString CHUNK_SIZE).data ++
            " OFFSET ".data ++ (toString offset).data)) := by
      simp only [buildQuery, String.data_append, hlim, List.append_assoc]
      rfl
    rw [hdata]
    exact containsPat_at _ _ _
  · have hdata : (buildQuery whereClause offset).data =
        ("SELECT * ".data ++ whereClause.data ++ " ORDER BY :id LIMIT ".data ++
            (toString CHUNK_SIZE).data ++ " ".data) ++
          ("OFFSET".data ++ (" ".data ++ (toString offset).data)) := by
      simp only [buildQuery, String.data_append, hoff, List.append_assoc]
      rfl
    rw [hdata]
    exact containsPat_at _ _ _
  · have hdata : (buildQuerySheets whereClause offset).data =
        ("SELECT * ".data ++ whereClause.data ++ " ".data) ++
          ("LIMIT".data ++ (" ".data ++ (toString CHUNK_SIZE).data ++
            " OFFSET ".data ++ (toString offset).data)) := by
      simp only [buildQuerySheets, String.data_append, hlim2, List.append_assoc]
      rfl
    rw [hdata]
    exact containsPat_at _ _ _
  · have hdata : (buildQuerySheets whereClause offset).data =
        ("SELECT * ".data ++ whereClause.data ++ " LIMIT ".data ++
            (toString CHUNK_SIZE).data ++ " ".data) ++
          ("OFFSET".data ++ (" ".data ++ (toString offset).data)) := by
      simp only [buildQuerySheets, String.data_append, hoff, List.append_assoc]
      rfl
    rw [hdata]
    exact containsPat_at _ _ _

/-- C5 counterexample: the claim says every query issued by
`streamUSACData` carries an `ORDER BY` clause, but the `sheets.ts`
variant's query string contains none (shown here at the empty predicate
and offset 0). -/
theorem buildQuerySheets_no_order_by :
    containsPat "ORDER BY".data (buildQuerySheets "" 0).data = false := by decide

/-- C7: the predicate built from the options: the empty mapping gives the
empty string, a single-valued entry an equality, a multi-valued entry an
`IN` list; qualifying entries are joined with `AND`, and `null` or empty
entries contribute nothing (also: no qualifying entry gives no `WHERE`
clause at all). -/
theorem buildPredicate_examples :
    buildPredicate [] = "" ∧
    buildPredicate [("state", OptVal.varr ["NC"])] = "(`state` = 'NC')" ∧
    buildPredicate [("state", OptVal.varr ["NC", "VA"])] = "(`state` IN ('NC', 'VA'))" ∧
    buildPredicate [("funding_year", OptVal.varr ["2024"]), ("state", OptVal.varr ["NC"])] =
      "(`funding_year` = '2024') AND (`state` = 'NC')" ∧
    (∀ k options, buildPredicate ((k, OptVal.vnull) :: options) = buildPredicate options) ∧
    (∀ k options, buildPredicate ((k, OptVal.varr []) :: options) = buildPredicate options) ∧
    (∀ k options, buildPredicate ((k, OptVal.vstr "") :: options) = buildPredicate options) ∧
    buildWhereClause [] = "" := by
  refine ⟨by decide, by decide, by decide, by decide, ?_, ?_, ?_, by decide⟩
  · intro k options
    simp [buildPredicate, buildConditions, qualifies, List.filter_cons]
  · intro k options
    simp [buildPredicate, buildConditions, qualifies, List.filter_cons]
  · intro k options
    simp [buildPredicate, buildConditions, qualifies, List.filter_cons]

/-! ## Fetch-session characterization -/

theorem streamPagesSheets_false (pages : List Grid) :
    streamPagesSheets false pages = (keptPages pages).map (fun q => q.tail) := by
  induction pages with
  | nil => rfl
  | cons p ps ih =>
    by_cases h : 1 < p.length
    · simp [streamPagesSheets, keptPages, List.takeWhile_cons, h, ih]
    · simp [streamPagesSheets, keptPages, List.takeWhile_cons, h]

theorem streamPagesSheets_true (pages : List Grid) :
    streamPagesSheets true pages = stripAfterFirst (keptPages pages) := by
  cases pages with
  | nil => rfl
  | cons p ps =>
    by_cases h : 1 < p.length
    · simp [streamPagesSheets, keptPages, List.takeWhile_cons, h,
        streamPagesSheets_false, stripAfterFirst]
    · simp [streamPagesSheets, keptPages, List.takeWhile_cons, h, stripAfterFirst]

theorem streamPages_eq (first : Bool) (pages : List Grid) :
    streamPages first pages =
      ((if first then stripAfterFirst (keptPages pages)
        else (keptPages pages).map (fun q => q.tail)),
        first && (keptPages pages).isEmpty) := by
  induction pages generalizing first with
  | nil => cases first <;> simp [streamPages, keptPages, stripAfterFirst]
  | cons p ps ih =>
    by_cases h : 1 < p.length
    · rw [streamPages]
      rw [if_pos h, ih false]
      cases first <;>
        simp [keptPages, List.takeWhile_cons, h, stripAfterFirst]
    · rw [streamPages]
      rw [if_neg h]
      cases first <;>
        simp [keptPages, List.takeWhile_cons, h, stripAfterFirst]

theorem streamSession_eq (first : Bool) (combos : List (List Grid)) :
    streamSession first combos =
      (if first then stripAfterFirst ((combos.map keptPages).flatten)
       else ((combos.map keptPages).flatten).map (fun q => q.tail)) := by
  induction combos generalizing first with
  | nil => cases first <;> rfl
  | cons c cs ih =>
    rw [streamSession, streamPages_eq]
    by_cases hk : (keptPages c).isEmpty
    · have hc : keptPages c = [] := by simpa [List.isEmpty_iff] using hk
      cases first <;> simp [hc, ih, stripAfterFirst]
    · obtain ⟨p, ps, hc⟩ : ∃ p ps, keptPages c = p :: ps := by
        cases hx : keptPages c with
        | nil => rw [hx] at hk; simp at hk
        | cons p ps => exact ⟨p, ps, rfl⟩
      cases first <;> simp [hc, hk, ih, stripAfterFirst, List.map_append]

/-- C1 (amended): in the `download.ts` `streamUSACData` the header line
survives only on the very first batch of the whole session — the first
kept page over all combinations is yielded whole, every later kept page
(also the first page of a later combination) is yielded with its first
line stripped.  The `sheets.ts` variant instead restarts the policy per
combination: within each combination the first kept page is whole and the
later ones stripped, so every combination re-yields its header. -/
theorem streamUSACData_header_policy (combos : List (List Grid)) :
    streamUSACData combos = stripAfterFirst ((combos.map keptPages).flatten) ∧
    streamUSACDataSheets combos =
      (combos.map (fun c => stripAfterFirst (keptPages c))).flatten := by
  constructor
  · rw [streamUSACData, streamSession_eq]
    rfl
  · rw [streamUSACDataSheets]
    congr 1
    exact List.map_congr_left (fun c _ => streamPagesSheets_true c)

/-- C1 counterexample: the claim says the first page of every combination
after the first is yielded with its header row stripped; in the
`sheets.ts` variant of `streamUSACData`, with two one-page combinations,
the second yielded batch is the full second page — its header line
`["h2"]` included — and not the stripped tail. -/
theorem streamUSACDataSheets_header_repeated :
    streamUSACDataSheets [[[["h1"], ["a"]]], [[["h2"], ["b"]]]] =
      [[["h1"], ["a"]], [["h2"], ["b"]]] ∧
    ([["h2"], ["b"]] : Grid) ≠ ([["h2"], ["b"]] : Grid).tail := by
  exact ⟨by decide, by decide⟩

/-! ## Chunked-combination lemmas -/

theorem cartFoldLength {α : Type} :
    ∀ (arrays : List (List α)) (acc : List (List α)) (n : Nat),
      (∀ x ∈ acc, x.length = n) →
      ∀ c ∈ arrays.foldl
        (fun acc arr => (acc.map (fun x => arr.map (fun y => x ++ [y]))).flatten) acc,
        c.length = n + arrays.length := by
  intro arrays
  induction arrays with
  | nil =>
    intro acc n h c hc
    simpa using h c hc
  | cons a as ih =>
    intro acc n h c hc
    simp only [List.foldl_cons] at hc
    have step : ∀ x ∈ ((acc.map (fun x => a.map (fun y => x ++ [y]))).flatten),
        x.length = n + 1 := by
      intro x hx
      simp only [List.mem_flatten, List.mem_map] at hx
      obtain ⟨m, ⟨x0, hx0, rfl⟩, hxm⟩ := hx
      obtain ⟨y, hy, rfl⟩ := List.mem_map.1 hxm
      simp [h x0 hx0]
    have := ih _ (n + 1) step c hc
    simp only [List.length_cons]
    omega

theorem cartesianProduct_length {α : Type} (arrays : List (List α)) (combo : List α)
    (h : combo ∈ cartesianProduct arrays) : combo.length = arrays.length := by
  simpa using cartFoldLength arrays [[]] 0 (by simp) combo h

theorem chunksPos_flatten (szPred : Nat) (l : List String) :
    (chunksPos szPred l).flatten = l := by
  have key : ∀ (n : Nat) (l : List String), l.length ≤ n →
      (chunksPos szPred l).flatten = l := by
    intro n
    induction n with
    | zero =>
      intro l hl
      have : l = [] := List.length_eq_zero.1 (Nat.le_zero.1 hl)
      subst this
      simp [chunksPos]
    | succ n ih =>
      intro l hl
      match l with
      | [] => simp [chunksPos]
      | x :: xs =>
        rw [chunksPos]
        simp only [List.flatten_cons]
        rw [ih (xs.drop szPred) (by simp only [List.length_drop]; simp at hl; omega)]
        simp [List.take_append_drop]
  exact key l.length l le_rfl

theorem chunksPos_chunk_le (szPred : Nat) (l : List String) :
    ∀ c ∈ chunksPos szPred l, c.length ≤ szPred + 1 := by
  have key : ∀ (n : Nat) (l : List String), l.length ≤ n →
      ∀ c ∈ chunksPos szPred l, c.length ≤ szPred + 1 := by
    intro n
    induction n with
    | zero =>
      intro l hl c hc
      have : l = [] := List.length_eq_zero.1 (Nat.le_zero.1 hl)
      subst this
      simp [chunksPos] at hc
    | succ n ih =>
      intro l hl c hc
      match l with
      | [] => simp [chunksPos] at hc
      | x :: xs =>
        rw [chunksPos] at hc
        rcases List.mem_cons.1 hc with h | h
        · subst h
          simp only [List.length_cons, List.length_take]
          omega
        · exact ih (xs.drop szPred)
            (by simp only [List.length_drop]; simp at hl; omega) c h
  exact key l.length l le_rfl

theorem chunkArray_flatten (l : List String) (sz : Nat) :
    (chunkArray l sz).flatten = l := by
  rw [chunkArray]
  by_cases h : l.isEmpty || sz == 0
  · rw [if_pos h]
    simp
  · rw [if_neg h]
    exact chunksPos_flatten (sz - 1) l

theorem chunkArray_chunk_le (l : List String) (sz : Nat) (hsz : sz ≠ 0) :
    ∀ c ∈ chunkArray l sz, c.length ≤ sz := by
  rw [chunkArray]
  by_cases h : l.isEmpty || sz == 0
  · rw [if_pos h]
    intro c hc
    have hl : l = [] := by
      rcases Bool.or_eq_true_iff.1 h with h1 | h1
      · exact List.isEmpty_iff.1 h1
      · exact absurd (by simpa using h1) hsz
    simp [hl] at hc
    simp [hc, hl]
  · rw [if_neg h]
    intro c hc
    have := chunksPos_chunk_le (sz - 1) l c hc
    omega

theorem truthyChunkSize_ne_zero (cs : List (String × Option Nat)) (k : String)
    (sz : Nat) (h : truthyChunkSize cs k = some sz) : sz ≠ 0 := by
  rw [truthyChunkSize] at h
  rcases hx : lookupChunkSize cs k with _ | ⟨_ | n⟩ <;> rw [hx] at h
  · simp at h
  · simp at h
  · by_cases hn : n = 0
    · simp [hn] at h
    · simp [hn] at h
      omega

/-- C2: `generateChunkedOptionsCombinations` re-zips the Cartesian product
of the per-dimension chunk lists with the original dimension names; a
dimension holding an array with a truthy chunk size is split into
consecutive chunks whose concatenation is exactly the original value list
(nothing omitted, nothing duplicated) and whose sizes respect the chunk
size as an upper bound, while every other dimension contributes the
single-element chunk list `[value]`. -/
theorem generateChunkedOptionsCombinations_partition
    (options : List (String × OptVal)) (chunkSizes : List (String × Option Nat)) :
    (∀ combo ∈ generateChunkedOptionsCombinations options chunkSizes,
        combo.map Prod.fst = options.map Prod.fst) ∧
    ((generateChunkedOptionsCombinations options chunkSizes).map (List.map Prod.snd) =
        cartesianProduct (options.map (fun e => dimChunks chunkSizes e))) ∧
    (∀ k l sz, truthyChunkSize chunkSizes k = some sz →
        dimChunks chunkSizes (k, OptVal.varr l) = (chunkArray l sz).map OptVal.varr ∧
        (chunkArray l sz).flatten = l ∧
        ∀ c ∈ chunkArray l sz, c.length ≤ sz) ∧
    (∀ k l, truthyChunkSize chunkSizes k = none →
        dimChunks chunkSizes (k, OptVal.varr l) = [OptVal.varr l]) ∧
    (∀ k s, dimChunks chunkSizes (k, OptVal.vstr s) = [OptVal.vstr s]) ∧
    (∀ k, dimChunks chunkSizes (k, OptVal.vnull) = [OptVal.vnull]) := by
  have hlen : ∀ combo ∈ cartesianProduct (options.map (fun e => dimChunks chunkSizes e)),
      combo.length = options.length := by
    intro combo hc
    have := cartesianProduct_length _ combo hc
    simpa using this
  refine ⟨?_, ?_, ?_, ?_, ?_, ?_⟩
  · intro combo hcombo
    rw [generateChunkedOptionsCombinations] at hcombo
    obtain ⟨c, hc, rfl⟩ := List.mem_map.1 hcombo
    exact List.map_fst_zip _ c (by rw [hlen c hc, List.length_map])
  · rw [generateChunkedOptionsCombinations, List.map_map]
    have : ∀ c ∈ cartesianProduct (options.map (fun e => dimChunks chunkSizes e)),
        (List.map Prod.snd ∘ fun combination => (options.map Prod.fst).zip combination) c
          = id c := by
      intro c hc
      simp only [Function.comp, id]
      exact List.map_snd_zip _ c (by rw [hlen c hc, List.length_map])
    rw [List.map_congr_left this, List.map_id]
  · intro k l sz h
    refine ⟨?_, chunkArray_flatten l sz, chunkArray_chunk_le l sz (truthyChunkSize_ne_zero _ _ _ h)⟩
    simp [dimChunks, h]
  · intro k l h
    simp [dimChunks, h]
  · intro k s
    simp [dimChunks]
  · intro k
    simp [dimChunks]

/-! ## Association-list (JavaScript Map) lemmas -/

theorem mapSet_fst {α : Type} (m : List (String × α)) (k : String) (v : α) :
    (mapSet m k v).map Prod.fst =
      if k ∈ m.map Prod.fst then m.map Prod.fst else m.map Prod.fst ++ [k] := by
  induction m with
  | nil => simp [mapSet]
  | cons e rest ih =>
    by_cases h : e.1 = k
    · simp [mapSet, h]
    · rw [mapSet, if_neg h]
      simp only [List.map_cons, ih]
      by_cases hk : k ∈ rest.map Prod.fst
      · rw [if_pos hk, if_pos (by simp [hk])]
      · rw [if_neg hk, if_neg (by simp [hk, Ne.symm h])]
        simp

theorem mapSet_keys_nodup {α : Type} (m : List (String × α)) (k : String) (v : α)
    (h : (m.map Prod.fst).Nodup) : ((mapSet m k v).map Prod.fst).Nodup := by
  rw [mapSet_fst]
  by_cases hk : k ∈ m.map Prod.fst
  · rwa [if_pos hk]
  · rw [if_neg hk]
    simp [List.nodup_append, h, hk]

theorem jsMapOf_keys_nodup {α : Type} (pairs : List (String × α)) :
    ((jsMapOf pairs).map Prod.fst).Nodup := by
  have key : ∀ (ps : List (String × α)) (m : List (String × α)),
      (m.map Prod.fst).Nodup →
      ((ps.foldl (fun m e => mapSet m e.1 e.2) m).map Prod.fst).Nodup := by
    intro ps
    induction ps with
    | nil => intro m h; simpa using h
    | cons e rest ih =>
      intro m h
      simp only [List.foldl_cons]
      exact ih _ (mapSet_keys_nodup m e.1 e.2 h)
  exact key pairs [] (by simp)

theorem mapGet_of_mem {α : Type} (m : List (String × α))
    (h : (m.map Prod.fst).Nodup) (k : String) (v : α) (hm : (k, v) ∈ m) :
    mapGet m k = some v := by
  induction m with
  | nil => cases hm
  | cons e rest ih =>
    simp only [List.map_cons, List.nodup_cons] at h
    rcases List.mem_cons.1 hm with he | he
    · rw [← he, mapGet, if_pos rfl]
    · have hk : e.1 ≠ k := by
        intro hek
        exact h.1 (hek ▸ List.mem_map.2 ⟨(k, v), he, rfl⟩)
      rw [mapGet, if_neg hk]
      exact ih h.2 he

theorem mapGet_eq_none_of_not_mem {α : Type} (m : List (String × α)) (k : String)
    (h : k ∉ m.map Prod.fst) : mapGet m k = none := by
  induction m with
  | nil => rfl
  | cons e rest ih =>
    simp only [List.map_cons, List.mem_cons] at h
    push_neg at h
    rw [mapGet, if_neg (Ne.symm h.1)]
    exact ih h.2

/-! ## Split / join round trip -/

theorem splitSep_ne_nil (sep : Char) (cs : List Char) : splitSep sep cs ≠ [] := by
  cases cs with
  | nil => simp [splitSep]
  | cons c rest =>
    rw [splitSep]
    by_cases h : c = sep
    · simp [h]
    · simp only [if_neg h]
      cases hx : splitSep sep rest <;> simp

theorem intercalate_cons_cons {α : Type} (sep : List α) (g : List α) (gs : List (List α))
    (hgs : gs ≠ []) :
    List.intercalate sep (g :: gs) = g ++ sep ++ List.intercalate sep gs := by
  cases gs with
  | nil => exact absurd rfl hgs
  | cons g2 gs2 =>
    simp [List.intercalate, List.intersperse_cons_cons, List.flatten_cons, List.append_assoc]

theorem intercalate_splitSep (sep : Char) (cs : List Char) :
    List.intercalate [sep] (splitSep sep cs) = cs := by
  induction cs with
  | nil => simp [splitSep, List.intercalate]
  | cons c rest ih =>
    rw [splitSep]
    by_cases h : c = sep
    · rw [if_pos h]
      rw [intercalate_cons_cons [sep] [] (splitSep sep rest) (splitSep_ne_nil sep rest)]
      simp [h, ih]
    · rw [if_neg h]
      cases hx : splitSep sep rest with
      | nil => exact absurd hx (splitSep_ne_nil sep rest)
      | cons g gs =>
        rw [hx] at ih
        cases gs with
        | nil =>
          simp only [List.intercalate] at ih ⊢
          simp at ih ⊢
          exact ih
        | cons g2 gs2 =>
          rw [intercalate_cons_cons [sep] (c :: g) (g2 :: gs2) (by simp)]
          rw [intercalate_cons_cons [sep] g (g2 :: gs2) (by simp)] at ih
          simp only [List.cons_append]
          rw [ih]

theorem joinPipe_splitPipe (s : String) : joinPipe (splitPipe s) = s := by
  rw [joinPipe, splitPipe, List.map_map]
  have : (List.map (String.data ∘ fun g => String.mk g) (splitSep '|' s.data)) =
      List.map id (splitSep '|' s.data) := by
    apply List.map_congr_left
    intro g _
    rfl
  rw [this, List.map_id, intercalate_splitSep]

theorem splitPipe_injective (s t : String) (h : splitPipe s = splitPipe t) : s = t := by
  have := congrArg joinPipe h
  rwa [joinPipe_splitPipe, joinPipe_splitPipe] at this

/-! ## Differ validation behaviour -/

/-- C6 (amended): every `CALC_DELTA` variant returns the two-cell
`"Error"` row — never throwing, the embeddings being total functions — when
an input grid (or the flattened header list; for the older variant also
its first row) is empty, and when any left key index, or any right key
index of a *truthy* right argument, falls outside `[1, headerCount]`, with
the message naming that range.  The one escape is JavaScript falsiness:
a scalar right key argument `0` is treated as omitted and silently
replaced by the left key indices (see the counterexample). -/
theorem calcDelta_validation_errors
    (currentData previousData headers2d : Grid) (leftPk : PkArg) (rightPk : Option PkArg) :
    ((currentData.isEmpty || previousData.isEmpty || headers2d.flatten.isEmpty) = true →
      calcDeltaStructured currentData previousData headers2d leftPk rightPk =
        [["Error", "One or more input arrays are empty."]] ∧
      calcDeltaFreeText2 currentData previousData headers2d leftPk rightPk =
        [["Error", "One or more input arrays are empty."]]) ∧
    ((currentData.isEmpty || previousData.isEmpty || headers2d.isEmpty ||
        (headers2d.headD []).isEmpty) = true →
      calcDeltaFreeText1 currentData previousData headers2d leftPk rightPk =
        [["Error", "One or more input arrays are empty."]]) ∧
    ((currentData.isEmpty || previousData.isEmpty || headers2d.flatten.isEmpty) = false →
      (invalidIdx headers2d.flatten.length (zeroBased (pkList leftPk)) ||
        invalidIdx headers2d.flatten.length (zeroBased (effRightIdx leftPk rightPk))) = true →
      calcDeltaStructured currentData previousData headers2d leftPk rightPk =
        [["Error", "Invalid Primary Key index. Must be between 1 and " ++
          toString headers2d.flatten.length ++ "."]] ∧
      calcDeltaFreeText2 currentData previousData headers2d leftPk rightPk =
        [["Error", "Invalid Primary Key index. Must be between 1 and " ++
          toString headers2d.flatten.length ++ "."]]) ∧
    ((currentData.isEmpty || previousData.isEmpty || headers2d.isEmpty ||
        (headers2d.headD []).isEmpty) = false →
      (invalidIdx headers2d.flatten.length (zeroBased (pkList leftPk)) ||
        invalidIdx headers2d.flatten.length (zeroBased (effRightIdx leftPk rightPk))) = true →
      calcDeltaFreeText1 currentData previousData headers2d leftPk rightPk =
        [["Error", "Invalid Primary Key index. Must be between 1 and " ++
          toString headers2d.flatten.length ++ "."]]) := by
  refine ⟨?_, ?_, ?_, ?_⟩
  · intro h
    constructor
    · simp only [calcDeltaStructured, h, eq_self_iff_true, if_true]
    · simp only [calcDeltaFreeText2, h, eq_self_iff_true, if_true]
  · intro h
    simp only [calcDeltaFreeText1, h, eq_self_iff_true, if_true]
  · intro h1 h2
    constructor
    · simp only [calcDeltaStructured, h1, h2, Bool.false_eq_true, eq_self_iff_true,
        if_true, if_false]
    · simp only [calcDeltaFreeText2, h1, h2, Bool.false_eq_true, eq_self_iff_true,
        if_true, if_false]
  · intro h1 h2
    simp only [calcDeltaFreeText1, h1, h2, Bool.false_eq_true, eq_self_iff_true,
      if_true, if_false]

/-- C6 counterexample: the input `rightPkIndex = 0` supplies a right key
index lying outside `[1, 1]`, yet `CALC_DELTA` (structured variant)
returns the ordinary "nothing changed" sentinel `[[""]]`, not the error
row: the scalar `0` is falsy in JavaScript, so the `rightPkIndex ? … :
leftPkIndex` default silently replaces it before validation. -/
theorem calcDeltaStructured_falsy_right_index :
    calcDeltaStructured [["x"]] [["x"]] [["h"]] (PkArg.num 1) (some (PkArg.num 0)) =
      [[""]] ∧
    calcDeltaStructured [["x"]] [["x"]] [["h"]] (PkArg.num 1) (some (PkArg.num 0)) ≠
      [["Error", "Invalid Primary Key index. Must be between 1 and 1."]] := by
  exact ⟨by decide, by decide⟩

/-! ## Self-diff lemmas -/

theorem changeEntries_self (headers : List String) (leftZN : List Nat) (r : Row) :
    changeEntries headers leftZN r r = [] := by
  rw [changeEntries, List.filterMap_eq_nil_iff]
  intro p hp
  by_cases h : (p.2 == TIMESTAMP_COL || leftZN.contains p.1) = true
  · simp only [h, if_true]
  · simp only [Bool.not_eq_true] at h
    simp [h]

theorem changesListV1_self (flatHeaders : List String) (leftZN : List Nat) (r : Row) :
    changesListV1 flatHeaders leftZN r r = [] := by
  rw [changesListV1, List.filterMap_eq_nil_iff]
  intro p hp
  by_cases h : leftZN.contains p.1 = true
  · simp only [h, if_true]
  · simp only [Bool.not_eq_true] at h
    simp [h]

theorem firstPassStructured_eq_acc (headers : List String) (leftZN : List Nat)
    (prevMap : List (String × Row)) :
    ∀ (entries : List (String × Row))
      (acc : List String × List (String × List (String × String))),
      (∀ e ∈ entries, ∃ r, mapGet prevMap e.1 = some r ∧
        changeEntries headers leftZN e.2 r = []) →
      entries.foldl
        (fun acc e =>
          match mapGet prevMap e.1 with
          | none =>
            (setAdd acc.1 "New Row", mapSet acc.2 e.1 (newRowObj headers e.2))
          | some previousRow =>
            let rowChanges := changeEntries headers leftZN e.2 previousRow
            (rowChanges.foldl (fun s en => setAdd s en.1) acc.1,
              if rowChanges.isEmpty then acc.2
              else mapSet acc.2 e.1 (jsMapOf rowChanges))) acc = acc := by
  intro entries
  induction entries with
  | nil => intro acc _; rfl
  | cons e rest ih =>
    intro acc h
    obtain ⟨r, hr, hc⟩ := h e (List.mem_cons_self e rest)
    simp only [List.foldl_cons, hr, hc]
    exact ih acc (fun x hx => h x (List.mem_cons_of_mem e hx))

theorem keyedRows_self_coherent (idx : List Nat) (rows : Grid) :
    ∀ e ∈ keyedRows idx rows, mapGet (keyedRows idx rows) e.1 = some e.2 := by
  intro e he
  exact mapGet_of_mem _ (jsMapOf_keys_nodup _) e.1 e.2 (by simpa using he)

theorem freeTextBodyV1_self (flatHeaders : List String) (leftZN : List Nat)
    (m : List (String × Row)) (h : ∀ e ∈ m, mapGet m e.1 = some e.2) :
    freeTextBodyV1 flatHeaders leftZN m m = [] := by
  rw [freeTextBodyV1, List.filterMap_eq_nil_iff]
  intro e he
  simp only [h e he, changesListV1_self, List.isEmpty_nil, if_true]

/-- C9: on identical snapshots with a valid single-column key (and, as the
claim assumes, no duplicate composite keys — the hypothesis `hnd`), both
the structured variant and the older free-text variant of `CALC_DELTA`
return exactly the one-cell sentinel `[[""]]`, which differs from every
two-cell validation-error row. -/
theorem calcDelta_idempotent_self (S headers2d : Grid)
    (hS : S.isEmpty = false)
    (hh : headers2d.flatten.isEmpty = false)
    (hh1 : (headers2d.headD []).isEmpty = false)
    (hnd : (S.map (fun row =>
      buildKey (toNatList (zeroBased (pkList (PkArg.arr [1])))) row)).Nodup) :
    calcDeltaStructured S S headers2d (PkArg.arr [1]) none = [[""]] ∧
    calcDeltaFreeText1 S S headers2d (PkArg.arr [1]) none = [[""]] ∧
    (∀ msg : String,
      calcDeltaStructured S S headers2d (PkArg.arr [1]) none ≠ [["Error", msg]]) := by
  have hn : 0 < headers2d.flatten.length := by
    cases hx : headers2d.flatten with
    | nil => rw [hx] at hh; simp at hh
    | cons a l => simp [hx]
  have hh2 : headers2d.isEmpty = false := by
    cases hy : headers2d with
    | nil => rw [hy] at hh; simp at hh
    | cons a l => simp
  have herz : effRightIdx (PkArg.arr [1]) none = pkList (PkArg.arr [1]) := rfl
  have h1 : (S.isEmpty || S.isEmpty || headers2d.flatten.isEmpty) = false := by
    simp only [hS, hh]
    rfl
  have h1v : (S.isEmpty || S.isEmpty || headers2d.isEmpty ||
      (headers2d.headD []).isEmpty) = false := by
    simp only [hS, hh1, hh2]
    rfl
  have h1c : (S.isEmpty || headers2d.flatten.isEmpty) = false := by
    simp only [hS, hh]
    rfl
  have h1vc : (S.isEmpty || headers2d.isEmpty ||
      (headers2d.headD []).isEmpty) = false := by
    simp only [hS, hh1, hh2]
    rfl
  have hz : zeroBased (pkList (PkArg.arr [1])) = [0] := by decide
  have h2a : invalidIdx headers2d.flatten.length
      (zeroBased (pkList (PkArg.arr [1]))) = false := by
    rw [hz]
    simp only [invalidIdx, List.any_cons, List.any_nil, Bool.or_false]
    refine Bool.or_eq_false_iff.2 ⟨by decide, ?_⟩
    rw [decide_eq_false_iff_not]
    omega
  have hcoh : ∀ e ∈ keyedRows (toNatList (zeroBased (pkList (PkArg.arr [1])))) S,
      ∃ r, mapGet (keyedRows (toNatList (zeroBased (pkList (PkArg.arr [1])))) S) e.1 =
        some r ∧
      changeEntries headers2d.flatten (toNatList (zeroBased (pkList (PkArg.arr [1]))))
        e.2 r = [] := by
    intro e he
    exact ⟨e.2, keyedRows_self_coherent _ _ e he, changeEntries_self _ _ _⟩
  have hstructured :
      calcDeltaStructured S S headers2d (PkArg.arr [1]) none = [[""]] := by
    simp only [calcDeltaStructured, h1, Bool.false_eq_true, if_false, herz,
      Bool.or_self, h2a, h1c]
    rw [firstPassStructured]
    rw [firstPassStructured_eq_acc _ _ _ _ ([], []) hcoh]
    simp [structuredChangedCols, structuredBody]
  refine ⟨hstructured, ?_, ?_⟩
  · simp only [calcDeltaFreeText1, h1v, Bool.false_eq_true, if_false, herz,
      Bool.or_self, h2a, h1vc]
    rw [freeTextBodyV1_self _ _ _ (keyedRows_self_coherent _ _)]
    simp
  · intro msg heq
    rw [hstructured] at heq
    simp at heq

/-- C9 witness: the idempotence theorem applied at a concrete snapshot. -/
theorem calcDelta_idempotent_self_witness :
    calcDeltaStructured [["a", "b"]] [["a", "b"]] [["h1", "h2"]] (PkArg.arr [1]) none =
      [[""]] ∧
    calcDeltaFreeText1 [["a", "b"]] [["a", "b"]] [["h1", "h2"]] (PkArg.arr [1]) none =
      [[""]] := by
  have h := calcDelta_idempotent_self [["a", "b"]] [["h1", "h2"]]
    (by decide) (by decide) (by decide) (by decide)
  exact ⟨h.1, h.2.1⟩

/-! ## New-row reporting -/

/-- C3 (amended): in the free-text `CALC_DELTA` of the later source file,
every composite key present in the current snapshot's map but absent from
the previous snapshot's map yields the output row
`key components ++ ["New row"]`, and no body row is ever emitted for a
composite key absent from the current snapshot's map (in particular none
for a key present only in the previous snapshot).  The older variant
instead skips unmatched keys outright — see the counterexample. -/
theorem calcDeltaFreeText2_new_rows
    (currentData previousData headers2d : Grid) (leftPk : PkArg) (rightPk : Option PkArg)
    (h1 : (currentData.isEmpty || previousData.isEmpty ||
      headers2d.flatten.isEmpty) = false)
    (h2 : (invalidIdx headers2d.flatten.length (zeroBased (pkList leftPk)) ||
      invalidIdx headers2d.flatten.length
        (zeroBased (effRightIdx leftPk rightPk))) = false) :
    (∀ k row,
      (k, row) ∈ keyedRows (toNatList (zeroBased (pkList leftPk))) currentData →
      mapGet (keyedRows (toNatList (zeroBased (effRightIdx leftPk rightPk)))
        previousData) k = none →
      (splitPipe k ++ ["New row"]) ∈
        calcDeltaFreeText2 currentData previousData headers2d leftPk rightPk) ∧
    (∀ k,
      k ∈ (keyedRows (toNatList (zeroBased (effRightIdx leftPk rightPk)))
        previousData).map Prod.fst →
      mapGet (keyedRows (toNatList (zeroBased (pkList leftPk))) currentData) k = none →
      ∀ c, (splitPipe k ++ [c]) ∉
        (calcDeltaFreeText2 currentData previousData headers2d leftPk rightPk).tail) := by
  have hout : calcDeltaFreeText2 currentData previousData headers2d leftPk rightPk =
      (let body := freeTextBodyV2 headers2d.flatten
        (toNatList (zeroBased (pkList leftPk)))
        (keyedRows (toNatList (zeroBased (effRightIdx leftPk rightPk))) previousData)
        (keyedRows (toNatList (zeroBased (pkList leftPk))) currentData)
       if 1 < (((toNatList (zeroBased (pkList leftPk))).map
            (fun i => headers2d.flatten.getD i "") ++ ["Changes"]) :: body).length
       then ((toNatList (zeroBased (pkList leftPk))).map
            (fun i => headers2d.flatten.getD i "") ++ ["Changes"]) :: body
       else [[""]]) := by
    simp only [calcDeltaFreeText2, h1, Bool.false_eq_true, if_false, h2]
  constructor
  · intro k row hmem hget
    have hb : (splitPipe k ++ ["New row"]) ∈ freeTextBodyV2 headers2d.flatten
        (toNatList (zeroBased (pkList leftPk)))
        (keyedRows (toNatList (zeroBased (effRightIdx leftPk rightPk))) previousData)
        (keyedRows (toNatList (zeroBased (pkList leftPk))) currentData) := by
      rw [freeTextBodyV2]
      refine List.mem_filterMap.2 ⟨(k, row), hmem, ?_⟩
      simp only [hget]
    rw [hout]
    simp only []
    rw [if_pos (by
      simp only [List.length_cons]
      have := List.length_pos.2 (List.ne_nil_of_mem hb)
      omega)]
    exact List.mem_cons_of_mem _ hb
  · intro k hkprev hknone c hc
    rw [hout] at hc
    simp only [] at hc
    by_cases hlen : 1 < (((toNatList (zeroBased (pkList leftPk))).map
        (fun i => headers2d.flatten.getD i "") ++ ["Changes"]) ::
        freeTextBodyV2 headers2d.flatten (toNatList (zeroBased (pkList leftPk)))
          (keyedRows (toNatList (zeroBased (effRightIdx leftPk rightPk))) previousData)
          (keyedRows (toNatList (zeroBased (pkList leftPk))) currentData)).length
    · rw [if_pos hlen] at hc
      simp only [List.tail_cons] at hc
      rw [freeTextBodyV2] at hc
      obtain ⟨e, he, hfe⟩ := List.mem_filterMap.1 hc
      have hcohe : mapGet (keyedRows (toNatList (zeroBased (pkList leftPk)))
          currentData) e.1 = some e.2 :=
        keyedRows_self_coherent _ _ e he
      have hkey : splitPipe e.1 = splitPipe k := by
        rcases hpe : mapGet (keyedRows (toNatList (zeroBased (effRightIdx leftPk
            rightPk))) previousData) e.1 with _ | prevRow
        · rw [hpe] at hfe
          simp only [Option.some.injEq] at hfe
          have := congrArg List.dropLast hfe
          rwa [List.dropLast_concat, List.dropLast_concat] at this
        · rw [hpe] at hfe
          simp only [] at hfe
          by_cases hch : (changesListV2 headers2d.flatten
              (toNatList (zeroBased (pkList leftPk))) e.2 prevRow).isEmpty
          · rw [if_pos hch] at hfe
            cases hfe
          · rw [if_neg hch] at hfe
            simp only [Option.some.injEq] at hfe
            have := congrArg List.dropLast hfe
            rwa [List.dropLast_concat, List.dropLast_concat] at this
      have : e.1 = k := splitPipe_injective _ _ hkey
      rw [this, hknone] at hcohe
      cases hcohe
    · rw [if_neg hlen] at hc
      simp at hc

/-- C3 witness: the new-row theorem applied at a concrete input where the
key `"b"` is present only in the current snapshot. -/
theorem calcDeltaFreeText2_new_rows_witness :
    (splitPipe "b" ++ ["New row"]) ∈
      calcDeltaFreeText2 [["a"], ["b"]] [["a"]] [["h"]] (PkArg.arr [1]) none := by
  exact (calcDeltaFreeText2_new_rows [["a"], ["b"]] [["a"]] [["h"]]
    (PkArg.arr [1]) none (by decide) (by decide)).1 "b" ["b"] (by decide) (by decide)

/-- C3 counterexample: the older free-text `CALC_DELTA` variant (its line
`if (!previousRow) continue` skips unmatched keys) reports nothing for the
key `"b"`, which is present in the current snapshot and absent from the
previous one: the whole output is the `[[""]]` sentinel, with no new-row
marker anywhere, refuting the claim that such a key always appears with a
new-row marker. -/
theorem calcDeltaFreeText1_drops_new_rows :
    calcDeltaFreeText1 [["a", "1"], ["b", "2"]] [["a", "1"]] [["h1", "h2"]]
      (PkArg.arr [1]) none = [[""]] := by decide

/-! ## Change-detection rendering -/

/-- C4 (amended): in the structured variant's change detection
(`changeEntries`, the per-matched-row pass of `calcDeltaStructured`), the
reserved timestamp column never contributes an entry, and every entry
comes from a header position outside the key columns whose stringified
cell values differ; when both values parse as numbers the rendered change
is the up/down indicator (the up arrow exactly when the value increased;
the down arrow otherwise, hence also when the numeric difference is zero)
with the previous and current values, otherwise it is the generic `Δ`
marker with the previous and current strings.  The free-text variants do
not exclude the timestamp column — see the counterexample. -/
theorem changeEntries_exclusions_and_render
    (headers : List String) (leftZN : List Nat) (currentRow previousRow : Row) :
    (∀ v, (TIMESTAMP_COL, v) ∉ changeEntries headers leftZN currentRow previousRow) ∧
    (∀ h v, (h, v) ∈ changeEntries headers leftZN currentRow previousRow →
      ∃ i, headers.get? i = some h ∧ i ∉ leftZN ∧ h ≠ TIMESTAMP_COL ∧
        (currentRow.get? i).getD "undefined" ≠ (previousRow.get? i).getD "undefined" ∧
        ((∃ cn pn, jsNumber ((currentRow.get? i).getD "undefined") = some cn ∧
            jsNumber ((previousRow.get? i).getD "undefined") = some pn ∧
            v = (if jsNumLt pn cn then "⬆️" else "⬇️") ++ " " ++
              renderJsNum pn ++ " → " ++ renderJsNum cn) ∨
          ((jsNumber ((currentRow.get? i).getD "undefined") = none ∨
            jsNumber ((previousRow.get? i).getD "undefined") = none) ∧
            v = "Δ " ++ (previousRow.get? i).getD "undefined" ++ " → " ++
              (currentRow.get? i).getD "undefined"))) := by
  have main : ∀ h v, (h, v) ∈ changeEntries headers leftZN currentRow previousRow →
      ∃ i, headers.get? i = some h ∧ i ∉ leftZN ∧ h ≠ TIMESTAMP_COL ∧
        (currentRow.get? i).getD "undefined" ≠ (previousRow.get? i).getD "undefined" ∧
        ((∃ cn pn, jsNumber ((currentRow.get? i).getD "undefined") = some cn ∧
            jsNumber ((previousRow.get? i).getD "undefined") = some pn ∧
            v = (if jsNumLt pn cn then "⬆️" else "⬇️") ++ " " ++
              renderJsNum pn ++ " → " ++ renderJsNum cn) ∨
          ((jsNumber ((currentRow.get? i).getD "undefined") = none ∨
            jsNumber ((previousRow.get? i).getD "undefined") = none) ∧
            v = "Δ " ++ (previousRow.get? i).getD "undefined" ++ " → " ++
              (currentRow.get? i).getD "undefined")) := by
    intro h v hmem
    rw [changeEntries] at hmem
    obtain ⟨p, hp, hfp⟩ := List.mem_filterMap.1 hmem
    have hget : headers.get? p.1 = some p.2 := List.mem_enum_iff_get?.1 hp
    by_cases hg : (p.2 == TIMESTAMP_COL || leftZN.contains p.1) = true
    · rw [if_pos hg] at hfp
      cases hfp
    · rw [if_neg hg] at hfp
      have hg2 : ¬(p.2 = TIMESTAMP_COL) ∧ ¬(p.1 ∈ leftZN) := by
        simp only [Bool.or_eq_true, not_or, beq_iff_eq, Bool.not_eq_true] at hg
        exact ⟨hg.1, by simpa using hg.2⟩
      by_cases hcv : ((currentRow.get? p.1).getD "undefined" ==
          (previousRow.get? p.1).getD "undefined") = true
      · rw [if_pos hcv] at hfp
        cases hfp
      · rw [if_neg hcv] at hfp
        have hne : (currentRow.get? p.1).getD "undefined" ≠
            (previousRow.get? p.1).getD "undefined" := by
          simpa using hcv
        rcases hn1 : jsNumber ((currentRow.get? p.1).getD "undefined") with _ | cn <;>
          rcases hn2 : jsNumber ((previousRow.get? p.1).getD "undefined") with _ | pn <;>
          rw [hn1, hn2] at hfp <;>
          simp only [Option.some.injEq, Prod.mk.injEq] at hfp
        · exact ⟨p.1, hfp.1 ▸ hget, hg2.2, hfp.1 ▸ hg2.1, hne,
            Or.inr ⟨Or.inl hn1, hfp.2.symm⟩⟩
        · exact ⟨p.1, hfp.1 ▸ hget, hg2.2, hfp.1 ▸ hg2.1, hne,
            Or.inr ⟨Or.inl hn1, hfp.2.symm⟩⟩
        · exact ⟨p.1, hfp.1 ▸ hget, hg2.2, hfp.1 ▸ hg2.1, hne,
            Or.inr ⟨Or.inr hn2, hfp.2.symm⟩⟩
        · exact ⟨p.1, hfp.1 ▸ hget, hg2.2, hfp.1 ▸ hg2.1, hne,
            Or.inl ⟨cn, pn, hn1, hn2, hfp.2.symm⟩⟩
  refine ⟨?_, main⟩
  intro v hv
  obtain ⟨i, _, _, hne, _⟩ := main TIMESTAMP_COL v hv
  exact hne rfl

/-- C4 counterexample: the claim says the reserved timestamp column is
always excluded from change detection, but the free-text `CALC_DELTA`
variants skip only key columns: here a difference in the `Timestamp`
column is reported as a change. -/
theorem calcDeltaFreeText2_timestamp_not_excluded :
    calcDeltaFreeText2 [["a", "t2"]] [["a", "t1"]] [["k", "Timestamp"]]
      (PkArg.arr [1]) none = [["k", "Changes"], ["a", "Δ Timestamp: t1 → t2"]] := by
  decide

/-! ## Structured header ordering -/

/-- C8: `structuredChangedCols` — the changed-column segment of the
structured variant's output header (`calcDeltaStructured` appends it to
the key headers) — is a permutation of the collected changed-column set,
its non-`"New Row"` part is ordered by `headers.indexOf`, i.e. matches the
original header order, and whenever `"New Row"` is among the collected
columns it ends up in the last position, also of the whole output header
row whatever the key headers are. -/
theorem structuredChangedCols_order (headers changed : List String) :
    (structuredChangedCols headers changed).Perm changed ∧
    ((structuredChangedCols headers changed).filter
      (fun h => h != "New Row")).Pairwise
        (fun a b => jsIndexOf headers a ≤ jsIndexOf headers b) ∧
    ("New Row" ∈ changed →
      (structuredChangedCols headers changed).getLast? = some "New Row") ∧
    (∀ pkHeaders : List String, "New Row" ∈ changed →
      (pkHeaders ++ structuredChangedCols headers changed).getLast? =
        some "New Row") := by
  haveI instTot : IsTotal String (fun a b => jsIndexOf headers a ≤ jsIndexOf headers b) :=
    ⟨fun a b => le_total _ _⟩
  haveI instTrans : IsTrans String (fun a b => jsIndexOf headers a ≤ jsIndexOf headers b) :=
    ⟨fun a b c hab hbc => le_trans hab hbc⟩
  have hsorted : (changed.insertionSort
      (fun a b => jsIndexOf headers a ≤ jsIndexOf headers b)).Pairwise
      (fun a b => jsIndexOf headers a ≤ jsIndexOf headers b) :=
    List.sorted_insertionSort _ changed
  have hperm : (changed.insertionSort
      (fun a b => jsIndexOf headers a ≤ jsIndexOf headers b)).Perm changed :=
    List.perm_insertionSort _ changed
  rw [structuredChangedCols]
  by_cases hc : (changed.insertionSort
      (fun a b => jsIndexOf headers a ≤ jsIndexOf headers b)).contains "New Row" = true
  · rw [if_pos hc]
    have hmem : "New Row" ∈ changed.insertionSort
        (fun a b => jsIndexOf headers a ≤ jsIndexOf headers b) := by
      simpa [List.contains] using hc
    have hperm2 : ((changed.insertionSort
        (fun a b => jsIndexOf headers a ≤ jsIndexOf headers b)).erase "New Row" ++
        ["New Row"]).Perm changed := by
      refine ((List.perm_append_singleton _ _).trans ?_)
      exact ((List.perm_cons_erase hmem).symm).trans hperm
    refine ⟨hperm2, ?_, fun _ => List.getLast?_concat _, fun pkHeaders _ => ?_⟩
    · rw [List.filter_append]
      have hnr : (["New Row"].filter (fun h => h != "New Row")) = [] := by decide
      rw [hnr, List.append_nil]
      exact hsorted.sublist ((List.filter_sublist _).trans (List.erase_sublist _ _))
    · rw [← List.append_assoc]
      exact List.getLast?_concat _
  · rw [if_neg hc]
    have hnot : "New Row" ∉ changed := by
      intro hmem
      exact hc (by simpa [List.contains] using hperm.symm.subset hmem)
    refine ⟨hperm, hsorted.sublist (List.filter_sublist _),
      fun hmem => absurd hmem hnot, fun pkHeaders hmem => absurd hmem hnot⟩

/-! ## Empty-key filtering in the structured second pass -/

theorem structuredBody_mem_shape (changedColumnsList : List String)
    (changesByRow : List (String × List (String × String))) (r : Row)
    (hr : r ∈ structuredBody changedColumnsList changesByRow) :
    ∃ e ∈ changesByRow, (splitPipe e.1).all (fun v => v != "") = true ∧
      r = splitPipe e.1 ++
        changedColumnsList.map (fun column => (mapGet e.2 column).getD "") := by
  rw [structuredBody] at hr
  obtain ⟨e, he, hfe⟩ := List.mem_filterMap.1 hr
  by_cases hall : (splitPipe e.1).all (fun v => v != "") = true
  · rw [if_pos hall] at hfe
    exact ⟨e, he, hall, (Option.some_inj.1 hfe).symm⟩
  · rw [if_neg hall] at hfe
    cases hfe

/-- C10: in the structured `CALC_DELTA`, a row whose composite key has an
empty-string component is silently omitted from the output body even when
changes were detected for it (the hypothesis `hmem` places the key in the
first pass's change map, which also covers the `"New Row"` case): no body
row of the report decomposes as that key's components followed by one cell
per changed column. -/
theorem calcDeltaStructured_empty_key_omitted
    (currentData previousData headers2d : Grid) (leftPk : PkArg) (rightPk : Option PkArg)
    (k : String) (ch : List (String × String))
    (hmem : (k, ch) ∈ (firstPassStructured headers2d.flatten
        (toNatList (zeroBased (pkList leftPk)))
        (keyedRows (toNatList (zeroBased (effRightIdx leftPk rightPk))) previousData)
        (keyedRows (toNatList (zeroBased (pkList leftPk))) currentData)).2)
    (hempty : (splitPipe k).all (fun v => v != "") = false) :
    ∀ r ∈ (calcDeltaStructured currentData previousData headers2d leftPk rightPk).tail,
      ¬ ∃ cells : List String,
        r = splitPipe k ++ cells ∧
        cells.length = (structuredChangedCols headers2d.flatten
          (firstPassStructured headers2d.flatten
            (toNatList (zeroBased (pkList leftPk)))
            (keyedRows (toNatList (zeroBased (effRightIdx leftPk rightPk))) previousData)
            (keyedRows (toNatList (zeroBased (pkList leftPk))) currentData)).1).length := by
  intro r hr hex
  obtain ⟨cells, hcells, hlen⟩ := hex
  have hrbody : r ∈ structuredBody
      (structuredChangedCols headers2d.flatten
        (firstPassStructured headers2d.flatten
          (toNatList (zeroBased (pkList leftPk)))
          (keyedRows (toNatList (zeroBased (effRightIdx leftPk rightPk))) previousData)
          (keyedRows (toNatList (zeroBased (pkList leftPk))) currentData)).1)
      (firstPassStructured headers2d.flatten
        (toNatList (zeroBased (pkList leftPk)))
        (keyedRows (toNatList (zeroBased (effRightIdx leftPk rightPk))) previousData)
        (keyedRows (toNatList (zeroBased (pkList leftPk))) currentData)).2 := by
    rw [calcDeltaStructured] at hr
    by_cases hempty1 : (currentData.isEmpty || previousData.isEmpty ||
        headers2d.flatten.isEmpty) = true
    · rw [if_pos hempty1] at hr
      simp at hr
    · rw [if_neg hempty1] at hr
      by_cases hinv : (invalidIdx headers2d.flatten.length (zeroBased (pkList leftPk)) ||
          invalidIdx headers2d.flatten.length
            (zeroBased (effRightIdx leftPk rightPk))) = true
      · rw [if_pos hinv] at hr
        simp at hr
      · rw [if_neg hinv] at hr
        by_cases hout : 1 < (((toNatList (zeroBased (pkList leftPk))).map
            (fun i => headers2d.flatten.getD i "") ++
            structuredChangedCols headers2d.flatten
              (firstPassStructured headers2d.flatten
                (toNatList (zeroBased (pkList leftPk)))
                (keyedRows (toNatList (zeroBased (effRightIdx leftPk rightPk)))
                  previousData)
                (keyedRows (toNatList (zeroBased (pkList leftPk))) currentData)).1) ::
            structuredBody
              (structuredChangedCols headers2d.flatten
                (firstPassStructured headers2d.flatten
                  (toNatList (zeroBased (pkList leftPk)))
                  (keyedRows (toNatList (zeroBased (effRightIdx leftPk rightPk)))
                    previousData)
                  (keyedRows (toNatList (zeroBased (pkList leftPk))) currentData)).1)
              (firstPassStructured headers2d.flatten
                (toNatList (zeroBased (pkList leftPk)))
                (keyedRows (toNatList (zeroBased (effRightIdx leftPk rightPk)))
                  previousData)
                (keyedRows (toNatList (zeroBased (pkList leftPk))) currentData)).2).length
        · rw [if_pos hout] at hr
          simpa using hr
        · rw [if_neg hout] at hr
          simp at hr
  obtain ⟨e, he, hall, hshape⟩ := structuredBody_mem_shape _ _ r hrbody
  rw [hshape] at hcells
  have htot := congrArg List.length hcells
  simp only [List.length_append, List.length_map] at htot
  have hpre : splitPipe e.1 = splitPipe k :=
    (List.append_inj hcells (by omega)).1
  rw [splitPipe_injective _ _ hpre] at hall
  rw [hall] at hempty
  cases hempty

/-- C10 witness: at a concrete input whose composite key is the empty
string, the row that carries the detected change never occurs in the
report body. -/
theorem calcDeltaStructured_empty_key_omitted_witness :
    ((calcDeltaStructured [["", "1"]] [["", "2"]] [["a", "b"]]
      (PkArg.arr [1]) none).tail.countP (fun r => r == ["", "⬇️ 2 → 1"])) = 0 := by
  rw [List.countP_eq_zero]
  intro r hr hbeq
  have hr2 : r = ["", "⬇️ 2 → 1"] := by simpa using hbeq
  exact calcDeltaStructured_empty_key_omitted [["", "1"]] [["", "2"]] [["a", "b"]]
    (PkArg.arr [1]) none "" (jsMapOf [("b", "⬇️ 2 → 1")]) (by decide) (by decide)
    r hr ⟨["⬇️ 2 → 1"], by rw [hr2]; decide, by decide⟩
